import Mathlib

/-!
Shallow embedding of the outlier-detection engine of `src/index.js`.

JS numbers are modelled as exact rationals (`ℚ`); `Math.sqrt` is `Real.sqrt`
(so the standard deviation lives in `ℝ`).  Row indices are integers (`ℤ`,
so the JS sentinel `-1` can be represented literally).  The stable JS
`Array.prototype.sort` with an ascending comparator is modelled by
`List.insertionSort`, which is also stable.
-/

namespace DeviantData

/-- One entry of a ColumnView: `{ value, index }` as built by the
orchestrator from a data point (`src/index.js:178`). -/
structure Item where
  value : ℚ
  index : ℤ
  deriving DecidableEq, Repr

/-- The record returned by `getStats` (`src/index.js:70-84`):
`{ q1, q3, iqr, mean, stdDev, median, mad }`. -/
structure Stats where
  q1 : ℚ
  q3 : ℚ
  iqr : ℚ
  mean : ℚ
  stdDev : ℝ
  median : ℚ
  mad : ℚ

/-- `getStats` (`src/index.js:70-84`): quartiles by nearest-rank indexing on
the ascending-sorted sample, mean, population standard deviation, and the
median absolute deviation obtained with the same nearest-rank rule. -/
noncomputable def getStats (data : List ℚ) : Stats :=
  if data = [] then ⟨0, 0, 0, 0, 0, 0, 0⟩ else
  let sorted := List.insertionSort (· ≤ ·) data
  let n := sorted.length
  let q1 := sorted.getD (n / 4) 0
  let median := sorted.getD (n / 2) 0
  let q3 := sorted.getD (n * 3 / 4) 0
  let iqr := q3 - q1
  let mean := data.sum / (n : ℚ)
  let stdDev := Real.sqrt (((((data.map (fun x => (x - mean) ^ 2)).sum) / (n : ℚ)) : ℚ) : ℝ)
  let residuals := data.map (fun x => |x - median|)
  let sortedResiduals := List.insertionSort (· ≤ ·) residuals
  let mad := sortedResiduals.getD (sortedResiduals.length / 2) 0
  ⟨q1, q3, iqr, mean, stdDev, median, mad⟩

/-- `findOutliersIQR` (`src/index.js:86-92`). -/
noncomputable def findOutliersIQR (columnData : List Item) : List ℤ :=
  let values := columnData.map (·.value)
  let s := getStats values
  let lowerBound := s.q1 - 3/2 * s.iqr
  let upperBound := s.q3 + 3/2 * s.iqr
  (columnData.filter (fun d => decide (d.value < lowerBound) || decide (upperBound < d.value))).map (·.index)

/-- `findOutliersZScore` (`src/index.js:93-98`), default threshold 3.0. -/
noncomputable def findOutliersZScore (columnData : List Item) (threshold : ℚ := 3) : List ℤ :=
  let values := columnData.map (·.value)
  let s := getStats values
  if s.stdDev = 0 then [] else
  (columnData.filter (fun d => decide ((threshold : ℝ) < |((d.value : ℚ) : ℝ) - ((s.mean : ℚ) : ℝ)| / s.stdDev))).map (·.index)

/-- `findOutliersModifiedZScore` (`src/index.js:99-104`), default threshold 3.5,
constant 0.6745. -/
noncomputable def findOutliersModifiedZScore (columnData : List Item) (threshold : ℚ := 7/2) : List ℤ :=
  let values := columnData.map (·.value)
  let s := getStats values
  if s.mad = 0 then [] else
  (columnData.filter (fun d => decide (threshold < |(0.6745 : ℚ) * (d.value - s.median) / s.mad|))).map (·.index)

/-- `findOutliersGrubbs` (`src/index.js:105-121`): forEach-style fold tracking
`(maxDev, outlierIndex)` from `(0, -1)`, then compare with the fixed critical
value 2.0. -/
noncomputable def findOutliersGrubbs (columnData : List Item) : List ℤ :=
  let values := columnData.map (·.value)
  if values.length < 3 then [] else
  let s := getStats values
  if s.stdDev = 0 then [] else
  let st := columnData.foldl
    (fun (st : ℝ × ℤ) d =>
      let dev := |((d.value : ℚ) : ℝ) - ((s.mean : ℚ) : ℝ)| / s.stdDev
      if st.1 < dev then (dev, d.index) else st)
    ((0 : ℝ), (-1 : ℤ))
  if (2 : ℝ) < st.1 then [st.2] else []

/-- The sentinel item used to totalise the (always in-bounds) JS array access
`currentData[dataIndexToRemove]` in the ESD loop. -/
def defItem : Item := ⟨0, -1⟩

/-- Body of the `for` loop of `findOutliersESD` (`src/index.js:126-146`),
with the loop counter as fuel.  The forEach scan tracks
`(maxDeviation, potentialOutlierIndex, dataIndexToRemove)` from `(-1,-1,-1)`. -/
noncomputable def esdLoop : ℕ → List Item → List Item → List Item
  | 0, _, acc => acc
  | fuel + 1, currentData, acc =>
    if currentData.length < 3 then acc else
    let s := getStats (currentData.map (·.value))
    if s.stdDev = 0 then acc else
    let st := currentData.enum.foldl
      (fun (st : ℝ × ℤ × ℤ) di =>
        let R := |((di.2.value : ℚ) : ℝ) - ((s.mean : ℚ) : ℝ)| / s.stdDev
        if st.1 < R then (R, di.2.index, (di.1 : ℤ)) else st)
      ((-1 : ℝ), (-1 : ℤ), (-1 : ℤ))
    if (5/2 : ℝ) < st.1 ∧ st.2.2 ≠ -1 then
      esdLoop fuel (currentData.eraseIdx st.2.2.toNat)
        (acc ++ [currentData.getD st.2.2.toNat defItem])
    else acc

/-- `findOutliersESD` (`src/index.js:122-148`); the default `maxOutliers` is
`Math.floor(length * 0.1)`, i.e. `length / 10` on naturals. -/
noncomputable def findOutliersESD (columnData : List Item)
    (maxOutliers : ℕ := columnData.length / 10) : List ℤ :=
  if columnData.length < 5 then [] else
  (esdLoop maxOutliers columnData []).map (·.index)

/-- The keys of `Q_TABLE` (`src/index.js:153`) in the (ascending) iteration
order of the JS object's integer-like keys. -/
def qTableKeys : List ℕ := [3, 4, 5, 6, 7, 8, 9, 10, 15, 20, 30]

/-- The values of `Q_TABLE` (`src/index.js:153`); the catch-all branch is
never reached from `findOutliersDixonQ`. -/
def qTableVal (k : ℕ) : ℚ :=
  if k = 3 then 0.970 else if k = 4 then 0.829 else if k = 5 then 0.710 else
  if k = 6 then 0.625 else if k = 7 then 0.568 else if k = 8 then 0.526 else
  if k = 9 then 0.493 else if k = 10 then 0.466 else if k = 15 then 0.338 else
  if k = 20 then 0.298 else if k = 30 then 0.239 else 0.970

/-- `findOutliersDixonQ` (`src/index.js:149-163`). -/
def findOutliersDixonQ (columnData : List Item) : List ℤ :=
  let n := columnData.length
  if n < 3 ∨ 30 < n then [] else
  let sortedData := List.insertionSort (fun a b => a.value ≤ b.value) columnData
  let qCrit := qTableVal ((qTableKeys.reverse.find? (fun key => decide (key ≤ n))).getD 3)
  let range := (sortedData.getD (n - 1) defItem).value - (sortedData.getD 0 defItem).value
  if range = 0 then [] else
  let qLow := ((sortedData.getD 1 defItem).value - (sortedData.getD 0 defItem).value) / range
  let qHigh := ((sortedData.getD (n - 1) defItem).value - (sortedData.getD (n - 2) defItem).value) / range
  (if qCrit < qLow then [(sortedData.getD 0 defItem).index] else []) ++
  (if qCrit < qHigh then [(sortedData.getD (n - 1) defItem).index] else [])

/-- `findOutliersPeirce` (`src/index.js:164`). -/
noncomputable def findOutliersPeirce (columnData : List Item) : List ℤ :=
  findOutliersModifiedZScore columnData 4

/-- One entry of the method catalog (`src/index.js:165-173`). -/
structure MethodEntry where
  name : String
  fn : List Item → List ℤ
  description : String

/-- The method catalog `methods` (`src/index.js:165-173`), in source order. -/
noncomputable def methods : List MethodEntry :=
  [⟨"Interquartile Range (IQR)", findOutliersIQR,
    "Identifies outliers based on the spread of the middle 50% of the data."⟩,
   ⟨"Z-Score Method", fun c => findOutliersZScore c,
    "Flags data points that deviate significantly from the mean (typically > 3 standard deviations)."⟩,
   ⟨"Modified Z-Score Method", fun c => findOutliersModifiedZScore c,
    "A robust version of Z-score using median and median absolute deviation, less sensitive to existing outliers."⟩,
   ⟨"Grubbs\x27 Test", findOutliersGrubbs,
    "A statistical test to detect a single outlier in a normally distributed univariate dataset. (Simplified)"⟩,
   ⟨"Generalized ESD Test", fun c => findOutliersESD c,
    "An iterative test to detect multiple outliers in a normally distributed dataset. (Simplified)"⟩,
   ⟨"Dixon\x27s Q Test", findOutliersDixonQ,
    "A test for single outliers in small datasets (n<30). (Simplified)"⟩,
   ⟨"Peirce\x27s Criterion", findOutliersPeirce,
    "An early, rigorous method for outlier rejection. (Conceptual proxy used)"⟩]

/-- A parsed data point `{ index, values }` (`src/index.js:43`). -/
structure DataPoint where
  index : ℤ
  values : List ℚ
  deriving DecidableEq, Repr

/-- A parsed data set `{ data, headers, dimensions }` (`src/index.js:55-59`). -/
structure DataSet where
  data : List DataPoint
  headers : List String
  dimensions : ℕ

/-- An outlier record built by the orchestrator (`src/index.js:186-191`). -/
structure OutlierRecord where
  index : ℤ
  value : ℚ
  point : List ℚ
  columnIndex : ℕ
  deriving DecidableEq, Repr

/-- One entry of the analysis report (`src/index.js:196`). -/
structure AnalysisResult where
  methodName : String
  description : String
  outliers : List OutlierRecord

/-- `new Set(l)` on a list, preserving first-occurrence insertion order
(`src/index.js:179`). -/
def setDedup (l : List ℤ) : List ℤ :=
  l.foldl (fun acc x => if x ∈ acc then acc else acc ++ [x]) []

/-- Body of the per-index forEach of the orchestrator (`src/index.js:180-194`):
look the flagged index up in the data, then insert a record under the composite
key `(index, columnIndex)` unless it is already present. -/
def addIndex (ds : DataSet) (i : ℕ) (acc : List OutlierRecord) (idx : ℤ) : List OutlierRecord :=
  match ds.data.find? (fun dp => decide (dp.index = idx)) with
  | none => acc
  | some dataPoint =>
    if acc.any (fun r => decide (r.index = dataPoint.index) && decide (r.columnIndex = i)) then acc
    else acc ++ [⟨dataPoint.index, dataPoint.values.getD i 0, dataPoint.values, i⟩]

/-- The ColumnView for dimension `i` (`src/index.js:178`). -/
def colView (ds : DataSet) (i : ℕ) : List Item :=
  ds.data.map (fun dp => ⟨dp.values.getD i 0, dp.index⟩)

/-- The outlier list one method accumulates over all columns
(`src/index.js:176-195`). -/
noncomputable def methodOutliers (m : MethodEntry) (ds : DataSet) : List OutlierRecord :=
  (List.range ds.dimensions).foldl
    (fun acc i => (setDedup (m.fn (colView ds i))).foldl (addIndex ds i) acc) []

/-- `runAllAnalyses` (`src/index.js:174-198`). -/
noncomputable def runAllAnalyses (ds : DataSet) : List AnalysisResult :=
  methods.map (fun m => ⟨m.name, m.description, methodOutliers m ds⟩)

/-! ### Helper lemmas about `getStats` -/

lemma getStats_nil : getStats [] = ⟨0, 0, 0, 0, 0, 0, 0⟩ := by
  simp [getStats]

lemma getStats_q1 (data : List ℚ) (h : data ≠ []) :
    (getStats data).q1 = (List.insertionSort (· ≤ ·) data).getD (data.length / 4) 0 := by
  simp only [getStats, if_neg h, List.length_insertionSort]

lemma getStats_median (data : List ℚ) (h : data ≠ []) :
    (getStats data).median = (List.insertionSort (· ≤ ·) data).getD (data.length / 2) 0 := by
  simp only [getStats, if_neg h, List.length_insertionSort]

lemma getStats_q3 (data : List ℚ) (h : data ≠ []) :
    (getStats data).q3 = (List.insertionSort (· ≤ ·) data).getD (data.length * 3 / 4) 0 := by
  simp only [getStats, if_neg h, List.length_insertionSort]

lemma getStats_iqr (data : List ℚ) (h : data ≠ []) :
    (getStats data).iqr = (getStats data).q3 - (getStats data).q1 := by
  simp only [getStats, if_neg h]

lemma getStats_mean (data : List ℚ) (h : data ≠ []) :
    (getStats data).mean = data.sum / (data.length : ℚ) := by
  simp only [getStats, if_neg h, List.length_insertionSort]

lemma getStats_stdDev (data : List ℚ) (h : data ≠ []) :
    (getStats data).stdDev =
      Real.sqrt ((((data.map (fun x => (x - (getStats data).mean) ^ 2)).sum / (data.length : ℚ) : ℚ)) : ℝ) := by
  conv_lhs => rw [getStats]
  rw [if_neg h]
  simp only [List.length_insertionSort, getStats_mean data h]

lemma getStats_mad (data : List ℚ) (h : data ≠ []) :
    (getStats data).mad =
      (List.insertionSort (· ≤ ·) (data.map (fun x => |x - (getStats data).median|))).getD
        (data.length / 2) 0 := by
  conv_lhs => rw [getStats]
  rw [if_neg h]
  simp only [List.length_insertionSort, List.length_map, getStats_median data h]

/-! ### C1: the statistics calculator -/

/-- C1: for every non-empty sample, `getStats` returns the nearest-rank
quantiles `q1 = sorted[n/4]`, `median = sorted[n/2]`, `q3 = sorted[3n/4]`
of the ascending-sorted sample (stated against an arbitrary sorted
permutation of the sample), `iqr = q3 - q1`, the arithmetic mean, the
population standard deviation (divisor `n`), and `mad` = the nearest-rank
median (index `n/2`) of the sorted residuals `|x - median|`; for the empty
sample it returns all seven fields equal to zero. -/
theorem getStats_spec (data l r : List ℚ)
    (hl : l.Perm data) (hls : l.Sorted (· ≤ ·))
    (hr : r.Perm (data.map (fun x => |x - (getStats data).median|)))
    (hrs : r.Sorted (· ≤ ·)) (hne : data ≠ []) :
    getStats [] = ⟨0, 0, 0, 0, 0, 0, 0⟩ ∧
    (getStats data).q1 = l.getD (data.length / 4) 0 ∧
    (getStats data).median = l.getD (data.length / 2) 0 ∧
    (getStats data).q3 = l.getD (data.length * 3 / 4) 0 ∧
    (getStats data).iqr = (getStats data).q3 - (getStats data).q1 ∧
    (getStats data).mean = data.sum / (data.length : ℚ) ∧
    (getStats data).stdDev =
      Real.sqrt ((((data.map (fun x => (x - (getStats data).mean) ^ 2)).sum / (data.length : ℚ) : ℚ)) : ℝ) ∧
    (getStats data).mad = r.getD (data.length / 2) 0 := by
  have hleq : l = List.insertionSort (· ≤ ·) data :=
    List.eq_of_perm_of_sorted (hl.trans (List.perm_insertionSort _ data).symm) hls
      (List.sorted_insertionSort _ data)
  have hreq : r = List.insertionSort (· ≤ ·) (data.map (fun x => |x - (getStats data).median|)) :=
    List.eq_of_perm_of_sorted (hr.trans (List.perm_insertionSort _ _).symm) hrs
      (List.sorted_insertionSort _ _)
  subst hleq hreq
  exact ⟨getStats_nil, getStats_q1 data hne, getStats_median data hne, getStats_q3 data hne,
    getStats_iqr data hne, getStats_mean data hne, getStats_stdDev data hne, getStats_mad data hne⟩

/-- Witness for C1 at the concrete sample `[3, 1, 2]` with sorted
permutation `[1, 2, 3]` and sorted residuals `[0, 1, 1]`. -/
theorem getStats_spec_witness :
    getStats [] = ⟨0, 0, 0, 0, 0, 0, 0⟩ ∧
    (getStats [3, 1, 2]).q1 = [1, 2, 3].getD ([3, 1, 2].length / 4) 0 ∧
    (getStats [3, 1, 2]).median = [1, 2, 3].getD ([3, 1, 2].length / 2) 0 ∧
    (getStats [3, 1, 2]).q3 = [1, 2, 3].getD ([3, 1, 2].length * 3 / 4) 0 ∧
    (getStats [3, 1, 2]).iqr = (getStats [3, 1, 2]).q3 - (getStats [3, 1, 2]).q1 ∧
    (getStats [3, 1, 2]).mean = [3, 1, 2].sum / (([3, 1, 2].length : ℕ) : ℚ) ∧
    (getStats [3, 1, 2]).stdDev =
      Real.sqrt (((([3, 1, 2].map (fun x => (x - (getStats [3, 1, 2]).mean) ^ 2)).sum / (([3, 1, 2].length : ℕ) : ℚ) : ℚ)) : ℝ) ∧
    (getStats [3, 1, 2]).mad = [0, 1, 1].getD ([3, 1, 2].length / 2) 0 :=
  getStats_spec [3, 1, 2] [1, 2, 3] [0, 1, 1] (by decide) (by decide)
    (by
      have hm : (getStats [3, 1, 2]).median = 2 := by decide
      rw [hm]
      norm_num
      decide)
    (by decide) (by decide)

/-! ### C9: Peirce's criterion is Modified Z-score with threshold 4 -/

/-- C9: `findOutliersPeirce` is extensionally equal to
`findOutliersModifiedZScore` run with threshold 4.0. -/
theorem peirce_eq_modifiedZScore (columnData : List Item) :
    findOutliersPeirce columnData = findOutliersModifiedZScore columnData 4 := rfl

/-! ### C10: ESD with default maxOutliers on columns of size 5 to 9 -/

/-- C10: for a column of size `n` with `5 ≤ n ≤ 9`, ESD invoked with its
default `maxOutliers = floor(n * 0.1) = 0` returns the empty set regardless
of values. -/
theorem esd_default_small (col : List Item) (h5 : 5 ≤ col.length) (h9 : col.length ≤ 9) :
    findOutliersESD col = [] := by
  unfold findOutliersESD
  rw [Nat.div_eq_of_lt (by omega)]
  rw [if_neg (by omega)]
  rfl

/-- Witness for C10 at a concrete column of size 5. -/
theorem esd_default_small_witness :
    findOutliersESD [⟨1, 0⟩, ⟨2, 1⟩, ⟨3, 2⟩, ⟨4, 3⟩, ⟨100, 4⟩] = [] :=
  esd_default_small [⟨1, 0⟩, ⟨2, 1⟩, ⟨3, 2⟩, ⟨4, 3⟩, ⟨100, 4⟩] (by decide) (by decide)

/-! ### C6: columns of identical values -/

lemma insertionSort_replicate (n : ℕ) (v : ℚ) :
    List.insertionSort (· ≤ ·) (List.replicate n v) = List.replicate n v := by
  rw [List.eq_replicate_iff]
  constructor
  · rw [List.length_insertionSort, List.length_replicate]
  · intro b hb
    exact List.eq_of_mem_replicate ((List.mem_insertionSort _).1 hb)

lemma getD_replicate (n k : ℕ) (v : ℚ) (hk : k < n) :
    (List.replicate n v).getD k 0 = v := by
  rw [List.getD_eq_getElem _ _ (by simpa using hk), List.getElem_replicate]

lemma map_value_const (col : List Item) (v : ℚ) (h : ∀ d ∈ col, d.value = v) :
    col.map (·.value) = List.replicate col.length v := by
  rw [List.eq_replicate_iff]
  exact ⟨by simp, by intro b hb; obtain ⟨d, hd, rfl⟩ := List.mem_map.1 hb; exact h d hd⟩

lemma getStats_replicate_fields (n : ℕ) (v : ℚ) (h : 0 < n) :
    (getStats (List.replicate n v)).q1 = v ∧
    (getStats (List.replicate n v)).q3 = v ∧
    (getStats (List.replicate n v)).iqr = 0 ∧
    (getStats (List.replicate n v)).mean = v ∧
    (getStats (List.replicate n v)).stdDev = 0 ∧
    (getStats (List.replicate n v)).median = v ∧
    (getStats (List.replicate n v)).mad = 0 := by
  have hne : List.replicate n v ≠ [] := by
    simp only [ne_eq, List.replicate_eq_nil_iff]
    omega
  have hlen : (List.replicate n v).length = n := List.length_replicate n v
  have hq1 : (getStats (List.replicate n v)).q1 = v := by
    rw [getStats_q1 _ hne, insertionSort_replicate, hlen]
    exact getD_replicate n _ v (Nat.div_lt_self h (by norm_num))
  have hq3 : (getStats (List.replicate n v)).q3 = v := by
    rw [getStats_q3 _ hne, insertionSort_replicate, hlen]
    exact getD_replicate n _ v (by omega)
  have hmean : (getStats (List.replicate n v)).mean = v := by
    rw [getStats_mean _ hne, hlen, List.sum_replicate, nsmul_eq_mul]
    exact mul_div_cancel_left₀ v (Nat.cast_ne_zero.2 h.ne')
  have hmed : (getStats (List.replicate n v)).median = v := by
    rw [getStats_median _ hne, insertionSort_replicate, hlen]
    exact getD_replicate n _ v (Nat.div_lt_self h (by norm_num))
  have hstd : (getStats (List.replicate n v)).stdDev = 0 := by
    rw [getStats_stdDev _ hne, hmean, List.map_replicate]
    simp
  have hmad : (getStats (List.replicate n v)).mad = 0 := by
    rw [getStats_mad _ hne, hmed, List.map_replicate]
    simp only [sub_self, abs_zero, insertionSort_replicate, hlen]
    exact getD_replicate n _ 0 (Nat.div_lt_self h (by norm_num))
  refine ⟨hq1, hq3, ?_, hmean, hstd, hmed, hmad⟩
  rw [getStats_iqr _ hne, hq1, hq3, sub_self]

lemma sorted_getD_value_const (col : List Item) (v : ℚ) (h : ∀ d ∈ col, d.value = v)
    (k : ℕ) (hk : k < col.length) :
    ((List.insertionSort (fun a b => a.value ≤ b.value) col).getD k defItem).value = v := by
  rw [List.getD_eq_getElem _ _ (by simpa [List.length_insertionSort] using hk)]
  exact h _ ((List.mem_insertionSort _).1 (List.getElem_mem _))

/-- C6: for a column whose values are all equal, the statistics satisfy
`stdDev = 0`, `iqr = 0`, `mad = 0`, and each of the seven detection methods
returns the empty set. -/
theorem allequal_empty_results (col : List Item) (v : ℚ) (h : ∀ d ∈ col, d.value = v) :
    (getStats (col.map (·.value))).stdDev = 0 ∧
    (getStats (col.map (·.value))).iqr = 0 ∧
    (getStats (col.map (·.value))).mad = 0 ∧
    findOutliersIQR col = [] ∧
    findOutliersZScore col = [] ∧
    findOutliersModifiedZScore col = [] ∧
    findOutliersGrubbs col = [] ∧
    findOutliersESD col = [] ∧
    findOutliersDixonQ col = [] ∧
    findOutliersPeirce col = [] := by
  have hvals : col.map (·.value) = List.replicate col.length v := map_value_const col v h
  -- the three statistics fields
  have hfields : (getStats (col.map (·.value))).stdDev = 0 ∧
      (getStats (col.map (·.value))).iqr = 0 ∧
      (getStats (col.map (·.value))).mad = 0 ∧
      (col ≠ [] → (getStats (col.map (·.value))).q1 = v ∧
        (getStats (col.map (·.value))).q3 = v) := by
    rcases Nat.eq_zero_or_pos col.length with h0 | hpos
    · have : col = [] := List.length_eq_zero.1 h0
      subst this
      simp [getStats_nil]
    · have hf := getStats_replicate_fields col.length v hpos
      rw [hvals]
      exact ⟨hf.2.2.2.2.1, hf.2.2.1, hf.2.2.2.2.2.2, fun _ => ⟨hf.1, hf.2.1⟩⟩
  obtain ⟨hstd, hiqr, hmad, hq⟩ := hfields
  refine ⟨hstd, hiqr, hmad, ?_, ?_, ?_, ?_, ?_, ?_, ?_⟩
  -- IQR
  · rcases eq_or_ne col [] with rfl | hne
    · rfl
    · obtain ⟨hq1, hq3⟩ := hq hne
      simp only [findOutliersIQR]
      rw [List.map_eq_nil_iff, List.filter_eq_nil_iff]
      intro d hd
      have := h d hd
      simp [this, hq1, hq3, hiqr]
  -- Z-score
  · simp only [findOutliersZScore, hstd, if_pos]
  -- Modified Z-score
  · simp only [findOutliersModifiedZScore, hmad, if_pos]
  -- Grubbs
  · simp only [findOutliersGrubbs]
    rw [List.length_map]
    rcases Nat.lt_or_ge col.length 3 with h3 | h3
    · rw [if_pos h3]
    · rw [if_neg (by omega), hstd, if_pos rfl]
  -- ESD
  · simp only [findOutliersESD]
    rcases Nat.lt_or_ge col.length 5 with h5 | h5
    · rw [if_pos h5]
    · rw [if_neg (by omega)]
      cases hf : col.length / 10 with
      | zero => rfl
      | succ k =>
        simp only [esdLoop]
        rw [if_neg (by omega), if_pos hstd]
        rfl
  -- Dixon Q
  · simp only [findOutliersDixonQ]
    by_cases h330 : col.length < 3 ∨ 30 < col.length
    · rw [if_pos h330]
    · rw [if_neg h330]
      push_neg at h330
      have hr : ((List.insertionSort (fun a b => a.value ≤ b.value) col).getD (col.length - 1) defItem).value -
          ((List.insertionSort (fun a b => a.value ≤ b.value) col).getD 0 defItem).value = 0 := by
        rw [sorted_getD_value_const col v h _ (by omega), sorted_getD_value_const col v h _ (by omega), sub_self]
      rw [hr, if_pos rfl]
  -- Peirce
  · simp only [findOutliersPeirce, findOutliersModifiedZScore, hmad, if_pos]

/-! ### C3: when Z-score and Modified Z-score return empty -/

lemma map_value_01 : (([⟨0, 0⟩, ⟨1, 1⟩] : List Item).map (·.value)) = [0, 1] := by decide

lemma median_01 : (getStats ([0, 1] : List ℚ)).median = 1 := by
  rw [getStats_median _ (by decide)]
  norm_num [List.insertionSort, List.orderedInsert]

lemma mad_01 : (getStats ([0, 1] : List ℚ)).mad = 1 := by
  rw [getStats_mad _ (by decide), median_01]
  norm_num [List.insertionSort, List.orderedInsert]

lemma mean_01 : (getStats ([0, 1] : List ℚ)).mean = 1/2 := by
  rw [getStats_mean _ (by decide)]
  norm_num

lemma stdDev_01 : (getStats ([0, 1] : List ℚ)).stdDev = 1/2 := by
  rw [getStats_stdDev _ (by decide), mean_01]
  have h : ((((([0, 1] : List ℚ).map (fun x => (x - 1/2) ^ 2)).sum / (([0, 1] : List ℚ).length : ℚ)) : ℚ) : ℝ) = (1/2 : ℝ)^2 := by
    norm_num
  rw [h, Real.sqrt_sq (by norm_num)]

/-- Counterexample to C3: on the column `[(0,0), (1,1)]` both the Z-score
and the Modified Z-score method return the empty set although `stdDev` and
`mad` are non-zero, so "empty exactly when the dispersion statistic is zero"
fails in the only-if direction. -/
theorem zscore_mzs_empty_iff_counterexample :
    findOutliersZScore [⟨0, 0⟩, ⟨1, 1⟩] = [] ∧
    (getStats (([⟨0, 0⟩, ⟨1, 1⟩] : List Item).map (·.value))).stdDev ≠ 0 ∧
    findOutliersModifiedZScore [⟨0, 0⟩, ⟨1, 1⟩] = [] ∧
    (getStats (([⟨0, 0⟩, ⟨1, 1⟩] : List Item).map (·.value))).mad ≠ 0 := by
  refine ⟨?_, ?_, ?_, ?_⟩
  · simp only [findOutliersZScore, map_value_01]
    rw [if_neg (by rw [stdDev_01]; norm_num)]
    rw [List.map_eq_nil_iff, List.filter_eq_nil_iff]
    intro d hd
    rw [mean_01, stdDev_01]
    fin_cases hd <;> norm_num <;> rw [abs_of_nonneg (by norm_num)] <;> norm_num
  · rw [map_value_01, stdDev_01]; norm_num
  · simp only [findOutliersModifiedZScore, map_value_01]
    rw [if_neg (by rw [mad_01]; norm_num)]
    rw [List.map_eq_nil_iff, List.filter_eq_nil_iff]
    intro d hd
    rw [median_01, mad_01]
    fin_cases hd <;> norm_num <;> rw [abs_of_nonneg (by norm_num)] <;> norm_num
  · rw [map_value_01, mad_01]; norm_num

/-- C3 amended: the Z-score method returns the empty set whenever
`stdDev = 0`, and the Modified Z-score method returns the empty set whenever
`mad = 0` (the converse implications do not hold). -/
theorem zscore_mzs_empty_of_zero_dispersion (col : List Item) :
    ((getStats (col.map (·.value))).stdDev = 0 → findOutliersZScore col = []) ∧
    ((getStats (col.map (·.value))).mad = 0 → findOutliersModifiedZScore col = []) := by
  constructor
  · intro h
    simp only [findOutliersZScore, h, if_pos]
  · intro h
    simp only [findOutliersModifiedZScore, h, if_pos]

/-- Witness for amended C3 at the constant column `[(5,0), (5,1)]`. -/
theorem zscore_mzs_empty_of_zero_dispersion_witness :
    findOutliersZScore [⟨5, 0⟩, ⟨5, 1⟩] = [] ∧
    findOutliersModifiedZScore [⟨5, 0⟩, ⟨5, 1⟩] = [] := by
  have hv : (([⟨5, 0⟩, ⟨5, 1⟩] : List Item).map (·.value)) = List.replicate 2 5 := by decide
  have hf := getStats_replicate_fields 2 5 (by norm_num)
  exact ⟨(zscore_mzs_empty_of_zero_dispersion [⟨5, 0⟩, ⟨5, 1⟩]).1 (by rw [hv]; exact hf.2.2.2.2.1),
    (zscore_mzs_empty_of_zero_dispersion [⟨5, 0⟩, ⟨5, 1⟩]).2 (by rw [hv]; exact hf.2.2.2.2.2.2)⟩

/-- Witness for C6 at the concrete constant column `[5, 5, 5, 5, 5]`. -/
theorem allequal_empty_results_witness :
    (getStats (([⟨5, 0⟩, ⟨5, 1⟩, ⟨5, 2⟩, ⟨5, 3⟩, ⟨5, 4⟩] : List Item).map (·.value))).stdDev = 0 ∧
    (getStats (([⟨5, 0⟩, ⟨5, 1⟩, ⟨5, 2⟩, ⟨5, 3⟩, ⟨5, 4⟩] : List Item).map (·.value))).iqr = 0 ∧
    (getStats (([⟨5, 0⟩, ⟨5, 1⟩, ⟨5, 2⟩, ⟨5, 3⟩, ⟨5, 4⟩] : List Item).map (·.value))).mad = 0 ∧
    findOutliersIQR [⟨5, 0⟩, ⟨5, 1⟩, ⟨5, 2⟩, ⟨5, 3⟩, ⟨5, 4⟩] = [] ∧
    findOutliersZScore [⟨5, 0⟩, ⟨5, 1⟩, ⟨5, 2⟩, ⟨5, 3⟩, ⟨5, 4⟩] = [] ∧
    findOutliersModifiedZScore [⟨5, 0⟩, ⟨5, 1⟩, ⟨5, 2⟩, ⟨5, 3⟩, ⟨5, 4⟩] = [] ∧
    findOutliersGrubbs [⟨5, 0⟩, ⟨5, 1⟩, ⟨5, 2⟩, ⟨5, 3⟩, ⟨5, 4⟩] = [] ∧
    findOutliersESD [⟨5, 0⟩, ⟨5, 1⟩, ⟨5, 2⟩, ⟨5, 3⟩, ⟨5, 4⟩] = [] ∧
    findOutliersDixonQ [⟨5, 0⟩, ⟨5, 1⟩, ⟨5, 2⟩, ⟨5, 3⟩, ⟨5, 4⟩] = [] ∧
    findOutliersPeirce [⟨5, 0⟩, ⟨5, 1⟩, ⟨5, 2⟩, ⟨5, 3⟩, ⟨5, 4⟩] = [] :=
  allequal_empty_results [⟨5, 0⟩, ⟨5, 1⟩, ⟨5, 2⟩, ⟨5, 3⟩, ⟨5, 4⟩] 5 (by decide)

/-! ### C4 and C5: Grubbs and generalized ESD -/

/-- Characterisation of the forEach-style strict-max fold used by Grubbs
and ESD: the final state is either the initial one (and nothing beats it),
or the first element attaining the strict maximum. -/
lemma foldl_argmax_spec {α : Type} {β : Type} (f : α → ℝ) (g : α → β) :
    ∀ (l : List α) (m0 : ℝ) (b0 : β),
      (l.foldl (fun (st : ℝ × β) d => if st.1 < f d then (f d, g d) else st) (m0, b0) = (m0, b0) ∧
        ∀ d ∈ l, f d ≤ m0) ∨
      (∃ d ∈ l, l.foldl (fun (st : ℝ × β) d => if st.1 < f d then (f d, g d) else st) (m0, b0) = (f d, g d) ∧
        m0 < f d ∧ ∀ e ∈ l, f e ≤ f d) := by
  intro l
  induction l with
  | nil =>
    intro m0 b0
    left
    exact ⟨rfl, by simp⟩
  | cons a t ih =>
    intro m0 b0
    by_cases h : m0 < f a
    · rcases ih (f a) (g a) with ⟨heq, hle⟩ | ⟨d, hd, heq, hlt, hle⟩
      · refine Or.inr ⟨a, List.mem_cons_self a t, ?_, h, ?_⟩
        · rw [List.foldl_cons, if_pos h, heq]
        · intro e he
          rcases List.mem_cons.1 he with rfl | he
          · exact le_refl _
          · exact hle e he
      · refine Or.inr ⟨d, List.mem_cons_of_mem a hd, ?_, lt_trans h hlt, ?_⟩
        · rw [List.foldl_cons, if_pos h, heq]
        · intro e he
          rcases List.mem_cons.1 he with rfl | he
          · exact le_of_lt hlt
          · exact hle e he
    · rcases ih m0 b0 with ⟨heq, hle⟩ | ⟨d, hd, heq, hlt, hle⟩
      · refine Or.inl ⟨?_, ?_⟩
        · rw [List.foldl_cons, if_neg h, heq]
        · intro e he
          rcases List.mem_cons.1 he with rfl | he
          · exact not_lt.1 h
          · exact hle e he
      · refine Or.inr ⟨d, List.mem_cons_of_mem a hd, ?_, hlt, ?_⟩
        · rw [List.foldl_cons, if_neg h, heq]
        · intro e he
          rcases List.mem_cons.1 he with rfl | he
          · exact le_trans (not_lt.1 h) (le_of_lt hlt)
          · exact hle e he

lemma esdLoop_length_le (fuel : ℕ) :
    ∀ cur acc : List Item, (esdLoop fuel cur acc).length ≤ acc.length + fuel := by
  induction fuel with
  | zero =>
    intro cur acc
    simp [esdLoop]
  | succ k ih =>
    intro cur acc
    simp only [esdLoop]
    by_cases h3 : cur.length < 3
    · rw [if_pos h3]; omega
    · rw [if_neg h3]
      by_cases hs : (getStats (cur.map (·.value))).stdDev = 0
      · rw [if_pos hs]; omega
      · rw [if_neg hs]
        by_cases hc : (5/2 : ℝ) < (cur.enum.foldl
            (fun (st : ℝ × ℤ × ℤ) di =>
              let R := |((di.2.value : ℚ) : ℝ) - (((getStats (cur.map (·.value))).mean : ℚ) : ℝ)| / (getStats (cur.map (·.value))).stdDev
              if st.1 < R then (R, di.2.index, (di.1 : ℤ)) else st)
            ((-1 : ℝ), (-1 : ℤ), (-1 : ℤ))).1 ∧
            (cur.enum.foldl
            (fun (st : ℝ × ℤ × ℤ) di =>
              let R := |((di.2.value : ℚ) : ℝ) - (((getStats (cur.map (·.value))).mean : ℚ) : ℝ)| / (getStats (cur.map (·.value))).stdDev
              if st.1 < R then (R, di.2.index, (di.1 : ℤ)) else st)
            ((-1 : ℝ), (-1 : ℤ), (-1 : ℤ))).2.2 ≠ -1
        · rw [if_pos hc]
          refine le_trans (ih _ _) ?_
          simp only [List.length_append, List.length_cons, List.length_nil]
          omega
        · rw [if_neg hc]; omega

/-- C5: ESD returns empty for columns of size < 5; it never flags more than
`floor(n * 0.1)` points; and the loop stops when fuel runs out, when fewer
than 3 points remain, when `stdDev` becomes 0, or when the maximum
z-deviation does not exceed the fixed critical value 2.5, removing and
recording the scanned maximum otherwise. -/
theorem esd_spec (col : List Item) :
    (col.length < 5 → findOutliersESD col = []) ∧
    (findOutliersESD col).length ≤ col.length / 10 ∧
    (∀ cur acc : List Item, esdLoop 0 cur acc = acc) ∧
    (∀ (fuel : ℕ) (cur acc : List Item), cur.length < 3 → esdLoop (fuel + 1) cur acc = acc) ∧
    (∀ (fuel : ℕ) (cur acc : List Item), ¬ cur.length < 3 →
      (getStats (cur.map (·.value))).stdDev = 0 → esdLoop (fuel + 1) cur acc = acc) ∧
    (∀ (fuel : ℕ) (cur acc : List Item), ¬ cur.length < 3 →
      (getStats (cur.map (·.value))).stdDev ≠ 0 →
      let st := cur.enum.foldl
        (fun (st : ℝ × ℤ × ℤ) di =>
          let R := |((di.2.value : ℚ) : ℝ) - (((getStats (cur.map (·.value))).mean : ℚ) : ℝ)| / (getStats (cur.map (·.value))).stdDev
          if st.1 < R then (R, di.2.index, (di.1 : ℤ)) else st)
        ((-1 : ℝ), (-1 : ℤ), (-1 : ℤ))
      ((5/2 : ℝ) < st.1 ∧ st.2.2 ≠ -1 →
        esdLoop (fuel + 1) cur acc =
          esdLoop fuel (cur.eraseIdx st.2.2.toNat) (acc ++ [cur.getD st.2.2.toNat defItem])) ∧
      (¬ ((5/2 : ℝ) < st.1 ∧ st.2.2 ≠ -1) → esdLoop (fuel + 1) cur acc = acc)) := by
  refine ⟨?_, ?_, ?_, ?_, ?_, ?_⟩
  · intro h5
    unfold findOutliersESD
    rw [if_pos h5]
  · unfold findOutliersESD
    by_cases h5 : col.length < 5
    · rw [if_pos h5]
      simp
    · rw [if_neg h5, List.length_map]
      simpa using esdLoop_length_le (col.length / 10) col []
  · intro cur acc
    rfl
  · intro fuel cur acc h3
    simp only [esdLoop]
    rw [if_pos h3]
  · intro fuel cur acc h3 hs
    simp only [esdLoop]
    rw [if_neg h3, if_pos hs]
  · intro fuel cur acc h3 hs
    intro st
    constructor
    · intro hc
      simp only [esdLoop]
      rw [if_neg h3, if_neg hs, if_pos hc]
    · intro hc
      simp only [esdLoop]
      rw [if_neg h3, if_neg hs, if_neg hc]

/-- Witness for C5: concrete instances of the size guard and of the three
stopping conditions of the loop. -/
theorem esd_spec_witness :
    findOutliersESD [⟨1, 0⟩, ⟨2, 1⟩] = [] ∧
    esdLoop 0 [⟨1, 0⟩] [] = [] ∧
    esdLoop 1 [⟨1, 0⟩] [] = [] ∧
    esdLoop 1 [⟨5, 0⟩, ⟨5, 1⟩, ⟨5, 2⟩] [] = [] := by
  have h := esd_spec [⟨1, 0⟩, ⟨2, 1⟩]
  refine ⟨h.1 (by decide), h.2.2.1 [⟨1, 0⟩] [], h.2.2.2.1 0 [⟨1, 0⟩] [] (by decide), ?_⟩
  refine h.2.2.2.2.1 0 _ [] (by decide) ?_
  have hv : (([⟨5, 0⟩, ⟨5, 1⟩, ⟨5, 2⟩] : List Item).map (·.value)) = List.replicate 3 5 := by decide
  rw [hv]
  exact (getStats_replicate_fields 3 5 (by norm_num)).2.2.2.2.1

/-- The z-deviation `|value - mean| / stdDev` computed by Grubbs and ESD
(`src/index.js:113` and `src/index.js:132`). -/
noncomputable def zdev (s : Stats) (d : Item) : ℝ :=
  |((d.value : ℚ) : ℝ) - ((s.mean : ℚ) : ℝ)| / s.stdDev

/-- C4: Grubbs flags at most one index; every flagged index is a point
attaining the maximum z-deviation `|value - mean| / stdDev` and exceeding the
fixed critical value 2.0; some point exceeding 2.0 forces a flag; `n < 3` or
`stdDev = 0` give the empty set. -/
theorem grubbs_spec (col : List Item) :
    (col.length < 3 → findOutliersGrubbs col = []) ∧
    ((getStats (col.map (·.value))).stdDev = 0 → findOutliersGrubbs col = []) ∧
    (3 ≤ col.length → (getStats (col.map (·.value))).stdDev ≠ 0 →
      (findOutliersGrubbs col).length ≤ 1 ∧
      (∀ idx ∈ findOutliersGrubbs col, ∃ d ∈ col, d.index = idx ∧
        (2 : ℝ) < zdev (getStats (col.map (·.value))) d ∧
        ∀ e ∈ col, zdev (getStats (col.map (·.value))) e ≤ zdev (getStats (col.map (·.value))) d) ∧
      ((∃ d ∈ col, (2 : ℝ) < zdev (getStats (col.map (·.value))) d) →
        findOutliersGrubbs col ≠ [])) := by
  refine ⟨?_, ?_, ?_⟩
  · intro h3
    simp only [findOutliersGrubbs]
    rw [List.length_map, if_pos h3]
  · intro hs
    simp only [findOutliersGrubbs]
    by_cases h3 : (col.map (·.value)).length < 3
    · rw [if_pos h3]
    · rw [if_neg h3, if_pos hs]
  · intro h3 hs
    have hrw : findOutliersGrubbs col =
        (if (2:ℝ) < (col.foldl (fun (st : ℝ × ℤ) d =>
            if st.1 < zdev (getStats (col.map (·.value))) d
            then (zdev (getStats (col.map (·.value))) d, d.index) else st) ((0:ℝ), (-1:ℤ))).1
         then [(col.foldl (fun (st : ℝ × ℤ) d =>
            if st.1 < zdev (getStats (col.map (·.value))) d
            then (zdev (getStats (col.map (·.value))) d, d.index) else st) ((0:ℝ), (-1:ℤ))).2]
         else []) := by
      simp only [findOutliersGrubbs]
      rw [List.length_map, if_neg (by omega), if_neg hs]
      rfl
    rcases foldl_argmax_spec (zdev (getStats (col.map (·.value)))) (fun d : Item => d.index)
        col 0 (-1) with ⟨heq, hle⟩ | ⟨d, hd, heq, hlt, hle⟩
    · rw [hrw, heq]
      norm_num
      intro e he
      exact le_trans (hle e he) (by norm_num)
    · rw [hrw, heq]
      by_cases h2 : (2:ℝ) < zdev (getStats (col.map (·.value))) d
      · rw [if_pos h2]
        refine ⟨by norm_num, ?_, by simp⟩
        intro idx hidx
        rw [List.mem_singleton] at hidx
        exact ⟨d, hd, hidx.symm, h2, hle⟩
      · rw [if_neg h2]
        refine ⟨by norm_num, by simp, ?_⟩
        intro hex
        obtain ⟨e, he, h2'⟩ := hex
        exact absurd (lt_of_lt_of_le h2' (hle e he)) h2

/-- Witness for C4 at concrete columns exercising each guard. -/
theorem grubbs_spec_witness :
    findOutliersGrubbs [⟨1, 0⟩] = [] ∧
    findOutliersGrubbs [⟨5, 0⟩, ⟨5, 1⟩, ⟨5, 2⟩] = [] ∧
    (findOutliersGrubbs [⟨0, 0⟩, ⟨1, 1⟩, ⟨2, 2⟩]).length ≤ 1 := by
  refine ⟨(grubbs_spec [⟨1, 0⟩]).1 (by decide), ?_, ?_⟩
  · refine (grubbs_spec _).2.1 ?_
    have hv : (([⟨5, 0⟩, ⟨5, 1⟩, ⟨5, 2⟩] : List Item).map (·.value)) = List.replicate 3 5 := by decide
    rw [hv]
    exact (getStats_replicate_fields 3 5 (by norm_num)).2.2.2.2.1
  · refine ((grubbs_spec _).2.2 (by decide) ?_).1
    have hv : (([⟨0, 0⟩, ⟨1, 1⟩, ⟨2, 2⟩] : List Item).map (·.value)) = [0, 1, 2] := by decide
    rw [hv]
    have hm : (getStats ([0, 1, 2] : List ℚ)).mean = 1 := by
      rw [getStats_mean _ (by decide)]
      norm_num
    rw [getStats_stdDev _ (by decide), hm, Real.sqrt_ne_zero']
    norm_num

/-! ### C2: Dixon's Q test -/

instance : IsTotal Item (fun a b => a.value ≤ b.value) :=
  ⟨fun a b => le_total a.value b.value⟩

instance : IsTrans Item (fun a b => a.value ≤ b.value) :=
  ⟨fun _ _ _ hab hbc => le_trans hab hbc⟩

/-- C2: Dixon's Q test returns empty for `n < 3`, `n > 30`, or zero range;
the critical value is the table entry at the largest bracket key `<= n`
(default bracket 3); otherwise the result flags the sorted minimum iff
`qLow = (sorted[1]-sorted[0])/range` exceeds the critical value and the
sorted maximum iff `qHigh = (sorted[n-1]-sorted[n-2])/range` does, where the
sort is an ascending (by value) permutation of the column whose first and
last entries bound every value. -/
theorem dixonQ_spec (columnData : List Item) :
    ((columnData.length < 3 ∨ 30 < columnData.length) → findOutliersDixonQ columnData = []) ∧
    (∀ n : ℕ, qTableVal ((qTableKeys.reverse.find? (fun key => decide (key ≤ n))).getD 3) =
      (if 30 ≤ n then 0.239 else if 20 ≤ n then 0.298 else if 15 ≤ n then 0.338
       else if 10 ≤ n then 0.466 else if 9 ≤ n then 0.493 else if 8 ≤ n then 0.526
       else if 7 ≤ n then 0.568 else if 6 ≤ n then 0.625 else if 5 ≤ n then 0.710
       else if 4 ≤ n then 0.829 else (0.970 : ℚ))) ∧
    (3 ≤ columnData.length → columnData.length ≤ 30 →
      (List.insertionSort (fun a b => a.value ≤ b.value) columnData).Perm columnData ∧
      (List.insertionSort (fun a b => a.value ≤ b.value) columnData).Sorted (fun a b => a.value ≤ b.value) ∧
      (∀ d ∈ columnData,
        ((List.insertionSort (fun a b => a.value ≤ b.value) columnData).getD 0 defItem).value ≤ d.value ∧
        d.value ≤ ((List.insertionSort (fun a b => a.value ≤ b.value) columnData).getD (columnData.length - 1) defItem).value) ∧
      (((List.insertionSort (fun a b => a.value ≤ b.value) columnData).getD (columnData.length - 1) defItem).value -
          ((List.insertionSort (fun a b => a.value ≤ b.value) columnData).getD 0 defItem).value = 0 →
        findOutliersDixonQ columnData = []) ∧
      (((List.insertionSort (fun a b => a.value ≤ b.value) columnData).getD (columnData.length - 1) defItem).value -
          ((List.insertionSort (fun a b => a.value ≤ b.value) columnData).getD 0 defItem).value ≠ 0 →
        findOutliersDixonQ columnData =
          (if qTableVal ((qTableKeys.reverse.find? (fun key => decide (key ≤ columnData.length))).getD 3) <
              (((List.insertionSort (fun a b => a.value ≤ b.value) columnData).getD 1 defItem).value -
                ((List.insertionSort (fun a b => a.value ≤ b.value) columnData).getD 0 defItem).value) /
              (((List.insertionSort (fun a b => a.value ≤ b.value) columnData).getD (columnData.length - 1) defItem).value -
                ((List.insertionSort (fun a b => a.value ≤ b.value) columnData).getD 0 defItem).value)
           then [((List.insertionSort (fun a b => a.value ≤ b.value) columnData).getD 0 defItem).index] else []) ++
          (if qTableVal ((qTableKeys.reverse.find? (fun key => decide (key ≤ columnData.length))).getD 3) <
              (((List.insertionSort (fun a b => a.value ≤ b.value) columnData).getD (columnData.length - 1) defItem).value -
                ((List.insertionSort (fun a b => a.value ≤ b.value) columnData).getD (columnData.length - 2) defItem).value) /
              (((List.insertionSort (fun a b => a.value ≤ b.value) columnData).getD (columnData.length - 1) defItem).value -
                ((List.insertionSort (fun a b => a.value ≤ b.value) columnData).getD 0 defItem).value)
           then [((List.insertionSort (fun a b => a.value ≤ b.value) columnData).getD (columnData.length - 1) defItem).index] else []))) := by
  refine ⟨?_, ?_, ?_⟩
  · intro hg
    simp only [findOutliersDixonQ]
    rw [if_pos hg]
  · intro n
    by_cases h30 : 30 ≤ n
    · simp [qTableKeys, List.find?, h30, qTableVal]
    · have h29 : n ≤ 29 := by omega
      interval_cases n <;> norm_num [qTableKeys, List.find?, qTableVal]
  · intro h3 h30
    have hperm := List.perm_insertionSort (fun a b : Item => a.value ≤ b.value) columnData
    have hsorted := List.sorted_insertionSort (fun a b : Item => a.value ≤ b.value) columnData
    have hlen : (List.insertionSort (fun a b : Item => a.value ≤ b.value) columnData).length = columnData.length :=
      List.length_insertionSort (fun a b : Item => a.value ≤ b.value) columnData
    refine ⟨hperm, hsorted, ?_, ?_, ?_⟩
    · intro d hd
      obtain ⟨k, hk, hdk⟩ :=
        List.mem_iff_getElem.1 ((List.mem_insertionSort (fun a b : Item => a.value ≤ b.value)).2 hd)
      constructor
      · rw [List.getD_eq_getElem _ _ (by omega), ← hdk]
        rcases Nat.eq_zero_or_pos k with rfl | hkpos
        · exact le_refl _
        · exact hsorted.rel_get_of_lt (by simpa using hkpos)
      · rw [List.getD_eq_getElem _ _ (by omega), ← hdk]
        rcases eq_or_lt_of_le (Nat.le_sub_one_of_lt (hk.trans_le hlen.le)) with heq | hlt
        · have : k = columnData.length - 1 := by omega
          subst this
          exact le_refl _
        · exact hsorted.rel_get_of_lt (by simpa [hlen] using hlt)
    · intro hr
      simp only [findOutliersDixonQ]
      rw [if_neg (by omega), if_pos hr]
    · intro hr
      simp only [findOutliersDixonQ]
      rw [if_neg (by omega), if_neg hr]

/-- Witness for C2 at a size-1 column (guard) and a concrete size-3 column. -/
theorem dixonQ_spec_witness :
    findOutliersDixonQ [⟨1, 0⟩] = [] ∧
    (List.insertionSort (fun a b : Item => a.value ≤ b.value)
      ([⟨1, 0⟩, ⟨1, 1⟩, ⟨100, 2⟩] : List Item)).Perm [⟨1, 0⟩, ⟨1, 1⟩, ⟨100, 2⟩] ∧
    (List.insertionSort (fun a b : Item => a.value ≤ b.value)
      ([⟨1, 0⟩, ⟨1, 1⟩, ⟨100, 2⟩] : List Item)).Sorted (fun a b => a.value ≤ b.value) := by
  have h := dixonQ_spec [⟨1, 0⟩, ⟨1, 1⟩, ⟨100, 2⟩]
  have h13 := (dixonQ_spec [⟨1, 0⟩]).1 (Or.inl (by decide))
  exact ⟨h13, (h.2.2 (by decide) (by decide)).1, (h.2.2 (by decide) (by decide)).2.1⟩

/-! ### C8: report order -/

/-- C8: the report is an ordered sequence of exactly 7 results, one per
catalog entry, in the fixed order IQR, Z-Score, Modified Z-Score, Grubbs,
ESD, Dixon's Q, Peirce, each carrying its catalog entry's name and
description; the order is never re-sorted. -/
theorem report_catalog_order (ds : DataSet) :
    (runAllAnalyses ds).length = 7 ∧
    (runAllAnalyses ds).map (·.methodName) =
      ["Interquartile Range (IQR)", "Z-Score Method", "Modified Z-Score Method",
       "Grubbs\x27 Test", "Generalized ESD Test", "Dixon\x27s Q Test", "Peirce\x27s Criterion"] ∧
    (runAllAnalyses ds).map (fun r => (r.methodName, r.description)) =
      methods.map (fun m => (m.name, m.description)) ∧
    methods.length = 7 := by
  refine ⟨?_, ?_, ?_, ?_⟩ <;> simp [runAllAnalyses, methods]

/-! ### C7: orchestrator record bookkeeping -/
lemma setDedup_aux_mem (l : List ℤ) :
    ∀ (acc : List ℤ) (y : ℤ),
      (y ∈ l.foldl (fun acc x => if x ∈ acc then acc else acc ++ [x]) acc ↔ y ∈ acc ∨ y ∈ l) := by
  induction l with
  | nil => intro acc y; simp
  | cons a t ih =>
    intro acc y
    rw [List.foldl_cons]
    by_cases ha : a ∈ acc
    · rw [if_pos ha, ih]
      constructor
      · rintro (hy | hy)
        · exact Or.inl hy
        · exact Or.inr (List.mem_cons_of_mem a hy)
      · rintro (hy | hy)
        · exact Or.inl hy
        · rcases List.mem_cons.1 hy with rfl | hy
          · exact Or.inl ha
          · exact Or.inr hy
    · rw [if_neg ha, ih]
      simp only [List.mem_append, List.mem_singleton, List.mem_cons]
      tauto

lemma setDedup_aux_nodup (l : List ℤ) :
    ∀ acc : List ℤ, acc.Nodup →
      (l.foldl (fun acc x => if x ∈ acc then acc else acc ++ [x]) acc).Nodup := by
  induction l with
  | nil => intro acc h; simpa using h
  | cons a t ih =>
    intro acc h
    rw [List.foldl_cons]
    by_cases ha : a ∈ acc
    · rw [if_pos ha]; exact ih acc h
    · rw [if_neg ha]
      refine ih (acc ++ [a]) ?_
      simp [List.nodup_append, h, ha]

lemma mem_setDedup (l : List ℤ) (y : ℤ) : y ∈ setDedup l ↔ y ∈ l := by
  unfold setDedup
  rw [setDedup_aux_mem]
  simp

lemma setDedup_nodup (l : List ℤ) : (setDedup l).Nodup :=
  setDedup_aux_nodup l [] List.nodup_nil

/-- The record the orchestrator produces for flagged index `idx` in column
`i`, when the index lookup succeeds. -/
def colRecord (ds : DataSet) (i : ℕ) (idx : ℤ) : Option OutlierRecord :=
  (ds.data.find? (fun q => decide (q.index = idx))).map
    (fun q => ⟨q.index, q.values.getD i 0, q.values, i⟩)

lemma find?_index_eq_some (data : List DataPoint) (hnodup : (data.map (·.index)).Nodup)
    (dp : DataPoint) (hdp : dp ∈ data) :
    data.find? (fun q => decide (q.index = dp.index)) = some dp := by
  induction data with
  | nil => cases hdp
  | cons h t ih =>
    rw [List.map_cons, List.nodup_cons] at hnodup
    rcases List.mem_cons.1 hdp with rfl | hdp'
    · rw [List.find?_cons_of_pos _ (by simp)]
    · have hne : h.index ≠ dp.index := by
        intro he
        exact hnodup.1 (he ▸ List.mem_map.2 ⟨dp, hdp', rfl⟩)
      rw [List.find?_cons_of_neg _ (by simpa using hne)]
      exact ih hnodup.2 hdp'

lemma colRecord_mem_columnIndex (ds : DataSet) (i : ℕ) (idxs : List ℤ) (r : OutlierRecord)
    (hr : r ∈ idxs.filterMap (colRecord ds i)) : r.columnIndex = i := by
  obtain ⟨idx, _, hms⟩ := List.mem_filterMap.1 hr
  unfold colRecord at hms
  obtain ⟨q, _, rfl⟩ := Option.map_eq_some'.1 hms
  rfl

lemma colRecord_mem_index (ds : DataSet) (i : ℕ) (idxs : List ℤ) (r : OutlierRecord)
    (hr : r ∈ idxs.filterMap (colRecord ds i)) : r.index ∈ idxs := by
  obtain ⟨idx, hidx, hms⟩ := List.mem_filterMap.1 hr
  unfold colRecord at hms
  obtain ⟨q, hq, rfl⟩ := Option.map_eq_some'.1 hms
  have := List.find?_some hq
  simp only [decide_eq_true_eq] at this
  simpa [this] using hidx

lemma foldl_addIndex (ds : DataSet) (i : ℕ) :
    ∀ (idxs : List ℤ) (acc : List OutlierRecord), idxs.Nodup →
      (∀ r ∈ acc, r.columnIndex = i → r.index ∉ idxs) →
      idxs.foldl (addIndex ds i) acc = acc ++ idxs.filterMap (colRecord ds i) := by
  intro idxs
  induction idxs with
  | nil => intro acc _ _; simp
  | cons idx t ih =>
    intro acc hnd hinv
    rw [List.foldl_cons, List.filterMap_cons]
    rw [List.nodup_cons] at hnd
    cases hfind : ds.data.find? (fun q => decide (q.index = idx)) with
    | none =>
      have hadd : addIndex ds i acc idx = acc := by
        simp [addIndex, hfind]
      have hcr : colRecord ds i idx = none := by
        simp [colRecord, hfind]
      rw [hadd, hcr]
      exact ih acc hnd.2 (fun r hr hc hmem => hinv r hr hc (List.mem_cons_of_mem idx hmem))
    | some q =>
      have hqi : q.index = idx := by
        have := List.find?_some hfind
        simpa using this
      have hany : acc.any (fun r => decide (r.index = q.index) && decide (r.columnIndex = i)) = false := by
        rw [List.any_eq_false]
        intro r hr
        simp only [Bool.and_eq_true, decide_eq_true_eq, not_and]
        intro hri hci
        apply hinv r hr hci
        rw [hri, hqi]
        exact List.mem_cons_self idx t
      have hadd : addIndex ds i acc idx = acc ++ [⟨q.index, q.values.getD i 0, q.values, i⟩] := by
        simp [addIndex, hfind, hany]
      have hcr : colRecord ds i idx = some ⟨q.index, q.values.getD i 0, q.values, i⟩ := by
        simp [colRecord, hfind]
      have hinv' : ∀ r ∈ acc ++ [⟨q.index, q.values.getD i 0, q.values, i⟩],
          r.columnIndex = i → r.index ∉ t := by
        intro r hr hc
        rcases List.mem_append.1 hr with hr' | hr'
        · exact fun hmem => hinv r hr' hc (List.mem_cons_of_mem idx hmem)
        · rw [List.mem_singleton] at hr'
          subst hr'
          simpa [hqi] using hnd.1
      rw [hadd, hcr, ih _ hnd.2 hinv']
      simp

lemma foldl_columns (m : MethodEntry) (ds : DataSet) :
    ∀ (L : List ℕ), L.Nodup →
      ∀ acc : List OutlierRecord, (∀ r ∈ acc, r.columnIndex ∉ L) →
      L.foldl (fun acc i => (setDedup (m.fn (colView ds i))).foldl (addIndex ds i) acc) acc =
        acc ++ (L.map (fun i => (setDedup (m.fn (colView ds i))).filterMap (colRecord ds i))).flatten := by
  intro L
  induction L with
  | nil => intro _ acc _; simp
  | cons i t ih =>
    intro hnd acc hinv
    rw [List.nodup_cons] at hnd
    rw [List.foldl_cons]
    have hstep := foldl_addIndex ds i (setDedup (m.fn (colView ds i))) acc
      (setDedup_nodup _)
      (fun r hr hc _ => hinv r hr (hc ▸ List.mem_cons_self i t))
    rw [hstep]
    have hinv' : ∀ r ∈ acc ++ (setDedup (m.fn (colView ds i))).filterMap (colRecord ds i),
        r.columnIndex ∉ t := by
      intro r hr
      rcases List.mem_append.1 hr with hr' | hr'
      · exact fun hmem => hinv r hr' (List.mem_cons_of_mem i hmem)
      · rw [colRecord_mem_columnIndex ds i _ r hr']
        exact hnd.1
    rw [ih hnd.2 _ hinv']
    simp

lemma methodOutliers_eq (m : MethodEntry) (ds : DataSet) :
    methodOutliers m ds =
      ((List.range ds.dimensions).map
        (fun i => (setDedup (m.fn (colView ds i))).filterMap (colRecord ds i))).flatten := by
  unfold methodOutliers
  rw [foldl_columns m ds (List.range ds.dimensions) (List.nodup_range _) [] (by simp)]
  simp

lemma filter_flatten_nil (p : OutlierRecord → Bool) (F : ℕ → List OutlierRecord) :
    ∀ L : List ℕ, (∀ j ∈ L, (F j).filter p = []) → ((L.map F).flatten).filter p = [] := by
  intro L
  induction L with
  | nil => intro _; simp
  | cons j t ih =>
    intro h
    rw [List.map_cons, List.flatten_cons, List.filter_append,
      h j (List.mem_cons_self j t), ih (fun j' hj' => h j' (List.mem_cons_of_mem j hj'))]
    rfl

lemma filter_flatten_single (p : OutlierRecord → Bool) (F : ℕ → List OutlierRecord) (i : ℕ) :
    ∀ L : List ℕ, L.Nodup → i ∈ L → (∀ j ∈ L, j ≠ i → (F j).filter p = []) →
      ((L.map F).flatten).filter p = (F i).filter p := by
  intro L
  induction L with
  | nil => intro _ hi; cases hi
  | cons j t ih =>
    intro hnd hi h
    rw [List.nodup_cons] at hnd
    rw [List.map_cons, List.flatten_cons, List.filter_append]
    rcases List.mem_cons.1 hi with rfl | hi'
    · rw [filter_flatten_nil p F t ?_]
      · rw [List.append_nil]
      · intro j' hj'
        refine h j' (List.mem_cons_of_mem _ hj') ?_
        intro he
        exact hnd.1 (he ▸ hj')
    · rw [h j (List.mem_cons_self j t) ?_, ih hnd.2 hi'
        (fun j' hj' hne => h j' (List.mem_cons_of_mem j hj') hne)]
      · rfl
      · intro he
        exact hnd.1 (he ▸ hi')

lemma filter_colRecords (ds : DataSet) (hnodup : (ds.data.map (·.index)).Nodup)
    (dp : DataPoint) (hdp : dp ∈ ds.data) (i : ℕ) :
    ∀ idxs : List ℤ, idxs.Nodup →
      (idxs.filterMap (colRecord ds i)).filter
          (fun r => decide (r.index = dp.index) && decide (r.columnIndex = i)) =
        if dp.index ∈ idxs then [⟨dp.index, dp.values.getD i 0, dp.values, i⟩] else [] := by
  intro idxs
  induction idxs with
  | nil => intro _; simp
  | cons idx t ih =>
    intro hnd
    rw [List.nodup_cons] at hnd
    rw [List.filterMap_cons]
    cases hfind : ds.data.find? (fun q => decide (q.index = idx)) with
    | none =>
      have hne : dp.index ≠ idx := by
        intro he
        have := List.find?_eq_none.1 hfind dp hdp
        simp [he] at this
      rw [show colRecord ds i idx = none from by simp [colRecord, hfind]]
      rw [ih hnd.2]
      by_cases hmem : dp.index ∈ t
      · rw [if_pos hmem, if_pos (List.mem_cons_of_mem _ hmem)]
      · rw [if_neg hmem, if_neg (by simp [hne, hmem])]
    | some q =>
      have hqi : q.index = idx := by simpa using List.find?_some hfind
      rw [show colRecord ds i idx = some ⟨q.index, q.values.getD i 0, q.values, i⟩ from by
        simp [colRecord, hfind]]
      rw [List.filter_cons]
      by_cases hcase : idx = dp.index
      · have hq : q = dp := by
          rw [hcase] at hfind
          rw [find?_index_eq_some ds.data hnodup dp hdp] at hfind
          exact (Option.some_inj.1 hfind).symm
        have hpt : dp.index ∉ t := by
          rw [← hcase]
          exact hnd.1
        rw [ih hnd.2, if_neg hpt]
        rw [if_pos (by simp [hq, hqi, hcase])]
        rw [if_pos (by rw [← hcase]; exact List.mem_cons_self idx t)]
        simp [hq]
      · rw [if_neg (by
          simp only [Bool.and_eq_true, decide_eq_true_eq]
          rintro ⟨h', -⟩
          exact hcase (by rw [← hqi]; exact h')), ih hnd.2]
        by_cases hmem : dp.index ∈ t
        · rw [if_pos hmem, if_pos (List.mem_cons_of_mem _ hmem)]
        · rw [if_neg hmem, if_neg (by
            simp only [List.mem_cons, not_or]
            exact ⟨fun he => hcase he.symm, hmem⟩)]

/-- C7: for any data set with unique indices, any catalog method and any
data point, the records the orchestrator keeps for that point in column `i`
(deduplicated by the composite key `(index, columnIndex)`) are exactly one
record carrying the column's value, the full coordinate vector and the
column number when the method flags the point in that column, and none
otherwise; hence a point flagged in two columns yields exactly two records,
one per column. -/
theorem orchestrator_records (ds : DataSet) (hnodup : (ds.data.map (·.index)).Nodup)
    (m : MethodEntry) (_hm : m ∈ methods) (dp : DataPoint) (hdp : dp ∈ ds.data) (i : ℕ)
    (hi : i < ds.dimensions) :
    runAllAnalyses ds = methods.map (fun me => ⟨me.name, me.description, methodOutliers me ds⟩) ∧
    (methodOutliers m ds).filter
        (fun r => decide (r.index = dp.index) && decide (r.columnIndex = i)) =
      (if dp.index ∈ m.fn (colView ds i)
       then [⟨dp.index, dp.values.getD i 0, dp.values, i⟩] else []) := by
  refine ⟨rfl, ?_⟩
  rw [methodOutliers_eq]
  rw [filter_flatten_single _
    (fun j => (setDedup (m.fn (colView ds j))).filterMap (colRecord ds j)) i
    (List.range ds.dimensions) (List.nodup_range _) (List.mem_range.2 hi) ?_]
  · rw [filter_colRecords ds hnodup dp hdp i _ (setDedup_nodup _)]
    simp only [mem_setDedup]
  · intro j hj hne
    apply List.filter_eq_nil_iff.2
    intro r hr
    have hc := colRecord_mem_columnIndex ds j _ r hr
    simp [hc, hne]

/-- Witness for C7 at a concrete 1-D data set and the IQR catalog entry. -/
theorem orchestrator_records_witness :
    runAllAnalyses ⟨[⟨0, [1]⟩], ["x"], 1⟩ =
      methods.map (fun me => ⟨me.name, me.description, methodOutliers me ⟨[⟨0, [1]⟩], ["x"], 1⟩⟩) ∧
    (methodOutliers ⟨"Interquartile Range (IQR)", findOutliersIQR,
        "Identifies outliers based on the spread of the middle 50% of the data."⟩
        ⟨[⟨0, [1]⟩], ["x"], 1⟩).filter
        (fun r => decide (r.index = (⟨0, [1]⟩ : DataPoint).index) && decide (r.columnIndex = 0)) =
      (if (⟨0, [1]⟩ : DataPoint).index ∈
          (⟨"Interquartile Range (IQR)", findOutliersIQR,
            "Identifies outliers based on the spread of the middle 50% of the data."⟩ : MethodEntry).fn
            (colView ⟨[⟨0, [1]⟩], ["x"], 1⟩ 0)
       then [⟨(⟨0, [1]⟩ : DataPoint).index, (⟨0, [1]⟩ : DataPoint).values.getD 0 0,
              (⟨0, [1]⟩ : DataPoint).values, 0⟩] else []) := by
  exact orchestrator_records ⟨[⟨0, [1]⟩], ["x"], 1⟩ (by decide)
    ⟨"Interquartile Range (IQR)", findOutliersIQR,
      "Identifies outliers based on the spread of the middle 50% of the data."⟩
    (by unfold methods; exact List.mem_cons_self _ _)
    ⟨0, [1]⟩ (by decide) 0 (by decide)

end DeviantData
